import Mathlib

/-!
Shallow embedding of the scheduling and idempotent-delivery core of the
telegram-client-automation-tool repository (src/worker/worker.py,
src/backend/scheduling.py, src/backend/models.py), together with theorems
settling the frozen claims about it.

Modelling conventions:
* instants are minutes encoded as `Int` (UTC wall-clock value);
* a Python `datetime` is a wall-clock value plus an optional UTC offset
  (`none` = naive);
* fallible Python code returns `Except String _`;
* provider interactions (Telethon) are oracles passed as arguments;
* croniter is third-party code: it is modelled as "the least cron-matching
  wall-clock minute strictly after the given start", realised by a bounded
  linear search so everything stays executable.
-/

/-- Python `html.escape(s, quote=True)` replaces the five HTML
metacharacters by entities; the sequential `str.replace` calls in CPython
are equivalent to this character-wise map because none of the replacement
entities contains a character that a later replace rewrites. -/
def escChar : Char → List Char
  | '&' => "&amp;".toList
  | '<' => "&lt;".toList
  | '>' => "&gt;".toList
  | '"' => "&quot;".toList
  | '\'' => "&#x27;".toList
  | c => [c]

/-- worker.py `esc`: `html.escape(str(s), quote=True)` (the argument is
already a string, so `str` is the identity). -/
def esc (s : String) : String := String.mk (s.toList.flatMap escChar)

/-- Python whitespace stripped by `str.strip()` (ASCII part: space, tab,
newline, carriage return, vertical tab, form feed). -/
def isPySpace (c : Char) : Bool :=
  c = ' ' || c = '\t' || c = '\n' || c = '\r' || c = Char.ofNat 11 || c = Char.ofNat 12

/-- Python `s.strip()`. -/
def pyStrip (s : String) : String :=
  String.mk (((s.toList.dropWhile isPySpace).reverse.dropWhile isPySpace).reverse)

/-- worker.py `build_caption`: strip title and description; if the stripped
description is non-empty return `<b>{esc title}</b>\n{esc description}`,
otherwise just the bold title. -/
def build_caption (title description : String) : String :=
  let t := pyStrip title
  let d := pyStrip description
  if d ≠ "" then "<b>" ++ esc t ++ "</b>" ++ "\n" ++ esc d
  else "<b>" ++ esc t ++ "</b>"

/-! ### Send pipeline: text sends (worker.py `send_text_safe`) -/

/-- Outcome of one provider `send_message` call: success with a message id,
a Telethon `FloodWaitError` carrying `seconds`, or another exception. -/
inductive SendOutcome where
  | ok (msgId : Nat)
  | flood (seconds : Nat)
  | err (e : String)
deriving DecidableEq, Repr

/-- A Python exception escaping `send_text_safe`: either a propagated
`FloodWaitError` or a generic error. -/
inductive PyErr where
  | flood (seconds : Nat)
  | other (e : String)
deriving DecidableEq, Repr

/-- Trace of one `send_text_safe` call: its result (message-id list or the
escaping exception), how many provider send calls were made, and the sleeps
performed (in seconds). -/
structure SendTrace where
  result : Except PyErr (List Nat)
  attempts : Nat
  sleeps : List Nat
deriving Repr

/-- worker.py `send_text_safe`, with the provider as an oracle mapping the
attempt index to its outcome.  Empty text returns `[]` with no send.
Otherwise one send; only `FloodWaitError` is caught, after which the code
sleeps `e.seconds + 1` and retries exactly once, with any exception of the
retry propagating.  (The `throttle` pacing call is global-rate bookkeeping
orthogonal to the claims and is not part of the trace.) -/
def send_text_safe (text : String) (provider : Nat → SendOutcome) : SendTrace :=
  if text = "" then ⟨.ok [], 0, []⟩
  else
    match provider 0 with
    | .ok i => ⟨.ok [i], 1, []⟩
    | .err e => ⟨.error (.other e), 1, []⟩
    | .flood s =>
      match provider 1 with
      | .ok i => ⟨.ok [i], 2, [s + 1]⟩
      | .err e => ⟨.error (.other e), 2, [s + 1]⟩
      | .flood s2 => ⟨.error (.flood s2), 2, [s + 1]⟩

/-! ### Send pipeline: media sends (worker.py `send_images_safe`) -/

/-- One provider call made by the media pipeline: a grouped album upload of
local files with an optional caption, or a plain text message. -/
inductive PCall where
  | album (files : List String) (caption : Option String)
  | text (content : String)
deriving DecidableEq, Repr

/-- worker.py `send_images_safe` (happy path and the empty-download
fallback), returning the list of provider calls issued.  `dl` is the
download oracle (`_download_one`: url to local path, or failure) and `norm`
the normalisation oracle (`_ensure_photo_jpeg`).  The function truncates
the url list to its first ten elements before any other work; on the
FloodWait retry tier the code resends the same prepared (truncated) list,
so that tier adds no further references either. -/
def send_images_safe (image_urls : List String) (caption : Option String)
    (dl : String → Option String) (norm : String → String) : List PCall :=
  if image_urls = [] then []
  else
    let urls := image_urls.take 10
    let localPaths := urls.filterMap dl
    if localPaths = [] then
      (match caption with
       | some c => [PCall.text c]
       | none => []) ++ urls.map PCall.text
    else
      [PCall.album (localPaths.map norm) caption]

theorem esc_example : esc "a<b" = "a&lt;b" := by decide

theorem build_caption_example :
    build_caption " t " "" = "<b>t</b>" := by decide

/-! ### Datetimes and timezones -/

/-- A Python `datetime`: a wall-clock value in minutes plus an optional UTC
offset in minutes (`none` = naive, as the Mongo driver returns). -/
structure PyDateTime where
  wall : Int
  tzOffset : Option Int
deriving DecidableEq, Repr

/-- UTC instant of a datetime under the repository's convention: a naive
value is treated as already UTC (`replace(tzinfo=utc)`), an aware value is
converted with `astimezone(utc)`, i.e. its offset is subtracted. -/
def utcInstant (d : PyDateTime) : Int :=
  match d.tzOffset with
  | none => d.wall
  | some o => d.wall - o

/-- A Mongo document field holding a time value, as `_as_datetime` in
worker.py sees it: Python `None`, a `datetime`, or a string together with
the result of `datetime.fromisoformat` on it (`none` when parsing raises). -/
inductive TimeVal where
  | pynone
  | dt (d : PyDateTime)
  | str (s : String) (parsed : Option PyDateTime)
deriving DecidableEq, Repr

/-- Python truthiness of a `TimeVal`: `None` and the empty string are
falsy, datetimes and non-empty strings truthy. -/
def TimeVal.truthy : TimeVal → Bool
  | .pynone => false
  | .dt _ => true
  | .str s _ => !(s == "")

/-- Python `a or b`. -/
def pyOr (a b : TimeVal) : TimeVal := if a.truthy then a else b

/-- worker.py `_as_datetime`: `None` stays `None`, a datetime is returned
as is, a string is parsed with `fromisoformat` (failure gives `None`). -/
def asDatetime : TimeVal → Option PyDateTime
  | .pynone => none
  | .dt d => some d
  | .str _ p => p

/-! ### Cron evaluation (croniter model) -/

/-- A five-field cron expression; `none` is `*`, `some l` a list of allowed
values.  Third-party `croniter` parses the textual form; only the matching
semantics matters here. -/
structure CronExpr where
  minute : Option (List Nat) := none
  hour : Option (List Nat) := none
  dom : Option (List Nat) := none
  month : Option (List Nat) := none
  dow : Option (List Nat) := none
deriving DecidableEq, Repr

def fieldMatches : Option (List Nat) → Nat → Bool
  | none, _ => true
  | some l, v => l.contains v

/-- Whether local wall-clock minute `t` matches the cron expression, under
a simplified flat calendar (31-day months, 12-month years, 7-day weeks);
the calendar details are irrelevant to the claims, which only use that
matching is a fixed decidable predicate on wall minutes. -/
def cronMatches (c : CronExpr) (t : Int) : Bool :=
  fieldMatches c.minute (t % 60).toNat &&
  fieldMatches c.hour ((t % 1440) / 60).toNat &&
  fieldMatches c.dom (((t % 44640) / 1440).toNat + 1) &&
  fieldMatches c.month (((t % 535680) / 44640).toNat + 1) &&
  fieldMatches c.dow ((t % 10080) / 1440).toNat

/-- First instant `≥ t` satisfying `p`, searching at most `fuel` minutes. -/
def searchFrom (p : Int → Bool) (t : Int) : Nat → Option Int
  | 0 => none
  | fuel + 1 => if p t then some t else searchFrom p (t + 1) fuel

/-- One flat year of minutes: croniter's look-ahead is bounded, so the
model's search is too. -/
def cronSearchBound : Nat := 535680

/-- Model of `croniter(cron, now).get_next(datetime)`: the least
cron-matching wall-clock minute strictly after `nowLocal`, or `none` when
the bounded search is exhausted (croniter raises in that case). -/
def cronNext (c : CronExpr) (nowLocal : Int) : Option Int :=
  searchFrom (cronMatches c) (nowLocal + 1) cronSearchBound

/-! ### Next-Run Calculator, worker variant
(worker.py `compute_next_run_at_utc`) -/

/-- The scheduled-item document fields read by the worker, with the
defaults `doc.get` supplies. -/
structure WDoc where
  scheduleType : String := "once"
  runAt : TimeVal := .pynone
  nextRunAt : TimeVal := .pynone
  endAt : TimeVal := .pynone
  cron : Option CronExpr := none
  targetsMode : Option String := none
  targetChatIds : List Int := []
  enabled : Bool := true
deriving Repr

/-- worker.py `compute_next_run_at_utc`.  `tzOffset` is the configured
timezone's UTC offset in minutes and `nowLocalWall` the wall-clock value of
`datetime.now(tz)` (made explicit so "the now used" can be spoken about).
`once`: take `runAt or nextRunAt`, require it present and parseable, treat
naive as UTC, and apply the end cutoff.  Otherwise: require a cron
expression, take the first match strictly after now in local time, convert
to UTC, and apply the end cutoff.  Raises are modelled as `Except.error`. -/
def compute_next_run_at_utc (doc : WDoc) (tzOffset nowLocalWall : Int) :
    Except String (Option Int) :=
  if doc.scheduleType = "once" then
    if pyOr doc.runAt doc.nextRunAt = TimeVal.pynone then
      Except.error "Missing runAt for once schedule"
    else
      match asDatetime (pyOr doc.runAt doc.nextRunAt) with
      | none => Except.error "Invalid runAt"
      | some d =>
        match (asDatetime doc.endAt).map utcInstant with
        | some e =>
          if utcInstant d > e then Except.ok none
          else Except.ok (some (utcInstant d))
        | none => Except.ok (some (utcInstant d))
  else
    match doc.cron with
    | none => Except.error "Missing cron for cron schedule"
    | some c =>
      match cronNext c nowLocalWall with
      | none => Except.error "cron search exhausted"
      | some nextLocal =>
        match (asDatetime doc.endAt).map utcInstant with
        | some e =>
          if nextLocal - tzOffset > e then Except.ok none
          else Except.ok (some (nextLocal - tzOffset))
        | none => Except.ok (some (nextLocal - tzOffset))

/-! ### Next-Run Calculator, backend variant
(backend/scheduling.py `compute_next_run_at`) -/

/-- backend/scheduling.py `compute_next_run_at`: same conventions, but the
`once` branch returns `to_utc(run_at)` unconditionally (no cutoff check),
and arguments arrive as typed keywords rather than a raw document. -/
def compute_next_run_at (scheduleType : String) (runAt : Option PyDateTime)
    (cron : Option CronExpr) (endAt : Option PyDateTime)
    (tzOffset nowLocalWall : Int) : Except String (Option Int) :=
  if scheduleType = "once" then
    match runAt with
    | none => Except.error "runAt is required for once"
    | some d => Except.ok (some (utcInstant d))
  else
    match cron with
    | none => Except.error "cron is required for cron"
    | some c =>
      match cronNext c nowLocalWall with
      | none => Except.error "cron search exhausted"
      | some nextLocal =>
        match endAt.map utcInstant with
        | some e =>
          if nextLocal - tzOffset > e then Except.ok none
          else Except.ok (some (nextLocal - tzOffset))
        | none => Except.ok (some (nextLocal - tzOffset))

/-! ### Properties of the bounded cron search -/

theorem searchFrom_le (p : Int → Bool) (fuel : Nat) :
    ∀ (t r : Int), searchFrom p t fuel = some r → t ≤ r := by
  induction fuel with
  | zero => intro t r h; simp [searchFrom] at h
  | succ n ih =>
    intro t r h
    simp only [searchFrom] at h
    by_cases hp : p t = true
    · rw [if_pos hp] at h
      injection h with h
      omega
    · rw [if_neg hp] at h
      have := ih (t + 1) r h
      omega

theorem searchFrom_matches (p : Int → Bool) (fuel : Nat) :
    ∀ (t r : Int), searchFrom p t fuel = some r → p r = true := by
  induction fuel with
  | zero => intro t r h; simp [searchFrom] at h
  | succ n ih =>
    intro t r h
    simp only [searchFrom] at h
    by_cases hp : p t = true
    · rw [if_pos hp] at h
      injection h with h
      rw [← h]; exact hp
    · rw [if_neg hp] at h
      exact ih (t + 1) r h

theorem searchFrom_least (p : Int → Bool) (fuel : Nat) :
    ∀ (t r s : Int), searchFrom p t fuel = some r → t ≤ s → s < r → p s = false := by
  induction fuel with
  | zero => intro t r s h; simp [searchFrom] at h
  | succ n ih =>
    intro t r s h hts hsr
    simp only [searchFrom] at h
    by_cases hp : p t = true
    · rw [if_pos hp] at h
      injection h with h
      exfalso; omega
    · rw [if_neg hp] at h
      rcases eq_or_lt_of_le hts with heq | hlt
      · rw [← heq]
        simp only [Bool.not_eq_true] at hp
        exact hp
      · exact ih (t + 1) r s h (by omega) hsr

theorem cronNext_gt (c : CronExpr) (now r : Int) (h : cronNext c now = some r) :
    now < r := by
  have := searchFrom_le (cronMatches c) cronSearchBound (now + 1) r h
  omega

theorem cronNext_mono (c : CronExpr) (n₁ n₂ r₁ r₂ : Int) (h12 : n₁ ≤ n₂)
    (h₁ : cronNext c n₁ = some r₁) (h₂ : cronNext c n₂ = some r₂) : r₁ ≤ r₂ := by
  by_contra hgt
  push_neg at hgt
  have hm := searchFrom_matches (cronMatches c) cronSearchBound (n₂ + 1) r₂ h₂
  have hge := searchFrom_le (cronMatches c) cronSearchBound (n₂ + 1) r₂ h₂
  have hf := searchFrom_least (cronMatches c) cronSearchBound (n₁ + 1) r₁ r₂ h₁
    (by omega) hgt
  rw [hm] at hf
  cases hf

/-- Inversion of the worker calculator on a successful cron computation:
the document has a cron expression, the cron search succeeded, and the
result is the local match converted to UTC. -/
theorem compute_utc_cron_inv (doc : WDoc) (o n u : Int)
    (hst : ¬ doc.scheduleType = "once")
    (h : compute_next_run_at_utc doc o n = Except.ok (some u)) :
    ∃ c r, doc.cron = some c ∧ cronNext c n = some r ∧ u = r - o := by
  unfold compute_next_run_at_utc at h
  rw [if_neg hst] at h
  split at h
  · exact Except.noConfusion h
  · rename_i c hc
    split at h
    · exact Except.noConfusion h
    · rename_i r hn
      refine ⟨c, r, hc, hn, ?_⟩
      split at h
      · rename_i e he
        split at h
        · exact Option.noConfusion (Except.ok.inj h)
        · have := Option.some.inj (Except.ok.inj h)
          omega
      · have := Option.some.inj (Except.ok.inj h)
        omega

/-- Inversion of the backend calculator on a successful cron computation. -/
theorem compute_backend_cron_inv (st : String) (ra : Option PyDateTime)
    (cr : Option CronExpr) (ea : Option PyDateTime) (o n u : Int)
    (hst : ¬ st = "once")
    (h : compute_next_run_at st ra cr ea o n = Except.ok (some u)) :
    ∃ c r, cr = some c ∧ cronNext c n = some r ∧ u = r - o := by
  unfold compute_next_run_at at h
  rw [if_neg hst] at h
  split at h
  · exact Except.noConfusion h
  · rename_i c
    split at h
    · exact Except.noConfusion h
    · rename_i r hn
      refine ⟨c, r, rfl, hn, ?_⟩
      split at h
      · rename_i e he
        split at h
        · exact Option.noConfusion (Except.ok.inj h)
        · have := Option.some.inj (Except.ok.inj h)
          omega
      · have := Option.some.inj (Except.ok.inj h)
        omega

/-- C3: for every recurring (cron) schedule, both Next-Run Calculators
(worker `compute_next_run_at_utc` and backend `compute_next_run_at`)
return an instant strictly greater than the now instant used to compute it
(`nowLocalWall - tzOffset` in UTC), and results are monotone across
computations with non-decreasing now values. -/
theorem c3_next_run_strictly_after_and_monotone :
    (∀ (doc : WDoc) (o n₁ n₂ u₁ u₂ : Int),
      doc.scheduleType ≠ "once" →
      compute_next_run_at_utc doc o n₁ = Except.ok (some u₁) →
      compute_next_run_at_utc doc o n₂ = Except.ok (some u₂) →
      n₁ - o < u₁ ∧ (n₁ ≤ n₂ → u₁ ≤ u₂)) ∧
    (∀ (st : String) (ra : Option PyDateTime) (cr : Option CronExpr)
       (ea : Option PyDateTime) (o n₁ n₂ u₁ u₂ : Int),
      st ≠ "once" →
      compute_next_run_at st ra cr ea o n₁ = Except.ok (some u₁) →
      compute_next_run_at st ra cr ea o n₂ = Except.ok (some u₂) →
      n₁ - o < u₁ ∧ (n₁ ≤ n₂ → u₁ ≤ u₂)) := by
  constructor
  · intro doc o n₁ n₂ u₁ u₂ hst h₁ h₂
    obtain ⟨c, r₁, hc, hn₁, hu₁⟩ := compute_utc_cron_inv doc o n₁ u₁ hst h₁
    obtain ⟨c', r₂, hc', hn₂, hu₂⟩ := compute_utc_cron_inv doc o n₂ u₂ hst h₂
    rw [hc] at hc'
    have hcc := Option.some.inj hc'
    subst hcc
    have hgt := cronNext_gt c n₁ r₁ hn₁
    refine ⟨by omega, fun hle => ?_⟩
    have := cronNext_mono c n₁ n₂ r₁ r₂ hle hn₁ hn₂
    omega
  · intro st ra cr ea o n₁ n₂ u₁ u₂ hst h₁ h₂
    obtain ⟨c, r₁, hc, hn₁, hu₁⟩ := compute_backend_cron_inv st ra cr ea o n₁ u₁ hst h₁
    obtain ⟨c', r₂, hc', hn₂, hu₂⟩ := compute_backend_cron_inv st ra cr ea o n₂ u₂ hst h₂
    rw [hc] at hc'
    have hcc := Option.some.inj hc'
    subst hcc
    have hgt := cronNext_gt c n₁ r₁ hn₁
    refine ⟨by omega, fun hle => ?_⟩
    have := cronNext_mono c n₁ n₂ r₁ r₂ hle hn₁ hn₂
    omega

/-- An every-minute cron schedule document, used as concrete input. -/
def c3doc : WDoc := { scheduleType := "cron", cron := some {} }

theorem c3_witness :
    ((0 : Int) - 0 < 1 ∧ ((0 : Int) ≤ 5 → (1 : Int) ≤ 6)) ∧
    ((0 : Int) - 0 < 1 ∧ ((0 : Int) ≤ 5 → (1 : Int) ≤ 6)) :=
  ⟨c3_next_run_strictly_after_and_monotone.1 c3doc 0 0 5 1 6 (by decide) rfl rfl,
   c3_next_run_strictly_after_and_monotone.2 "cron" none (some {}) none 0 0 5 1 6
     (by decide) rfl rfl⟩

/-- A `once` document whose configured instant (UTC minute 100) lies past
its end cutoff (UTC minute 50). -/
def c4doc : WDoc :=
  { scheduleType := "once", runAt := TimeVal.dt ⟨100, none⟩,
    endAt := TimeVal.dt ⟨50, none⟩ }

/-- C4 counterexample: the worker Next-Run Calculator does not return the
configured instant unconditionally for a `once` schedule — with a
configured instant past the end cutoff it returns "no more occurrences"
(`Except.ok none`) instead of the instant, so the claim as stated fails on
`compute_next_run_at_utc`. -/
theorem c4_counterexample :
    c4doc.scheduleType = "once" ∧
    asDatetime (pyOr c4doc.runAt c4doc.nextRunAt) = some ⟨100, none⟩ ∧
    compute_next_run_at_utc c4doc 0 0 = Except.ok none ∧
    compute_next_run_at_utc c4doc 0 0 ≠ Except.ok (some 100) := by
  refine ⟨rfl, rfl, rfl, fun h => ?_⟩
  exact Option.noConfusion (Except.ok.inj h)

/-- C4 amended: for a `once` schedule with a configured, parseable instant,
the worker calculator's result is independent of "now" (a past instant is
still returned) and equals the instant converted to UTC — except that when
an end cutoff is configured and the instant exceeds it, the worker returns
"no more occurrences"; the backend calculator returns the instant converted
to UTC unconditionally, as the claim states. -/
theorem c4_amended_once_semantics :
    (∀ (doc : WDoc) (o n n' : Int) (d : PyDateTime),
      doc.scheduleType = "once" →
      asDatetime (pyOr doc.runAt doc.nextRunAt) = some d →
      compute_next_run_at_utc doc o n = compute_next_run_at_utc doc o n' ∧
      compute_next_run_at_utc doc o n =
        Except.ok (match (asDatetime doc.endAt).map utcInstant with
          | some e => if utcInstant d > e then none else some (utcInstant d)
          | none => some (utcInstant d))) ∧
    (∀ (st : String) (d : PyDateTime) (cr : Option CronExpr)
       (ea : Option PyDateTime) (o n : Int),
      st = "once" →
      compute_next_run_at st (some d) cr ea o n =
        Except.ok (some (utcInstant d))) := by
  constructor
  · intro doc o n n' d hst hrun
    have hne : ¬ pyOr doc.runAt doc.nextRunAt = TimeVal.pynone := by
      intro he
      rw [he] at hrun
      exact Option.noConfusion hrun
    have key : ∀ m : Int,
        compute_next_run_at_utc doc o m =
          Except.ok (match (asDatetime doc.endAt).map utcInstant with
            | some e => if utcInstant d > e then none else some (utcInstant d)
            | none => some (utcInstant d)) := by
      intro m
      unfold compute_next_run_at_utc
      rw [if_pos hst, if_neg hne, hrun]
      cases (asDatetime doc.endAt).map utcInstant with
      | none => rfl
      | some e =>
        by_cases hcmp : utcInstant d > e
        · simp [hcmp]
        · simp [hcmp]
    exact ⟨(key n).trans (key n').symm, key n⟩
  · intro st d cr ea o n hst
    unfold compute_next_run_at
    rw [if_pos hst]

theorem c4_amended_witness :
    (compute_next_run_at_utc c4doc 0 0 = compute_next_run_at_utc c4doc 0 7 ∧
     compute_next_run_at_utc c4doc 0 0 =
       Except.ok (match (asDatetime c4doc.endAt).map utcInstant with
         | some e =>
           if utcInstant (⟨100, none⟩ : PyDateTime) > e then none
           else some (utcInstant (⟨100, none⟩ : PyDateTime))
         | none => some (utcInstant (⟨100, none⟩ : PyDateTime)))) ∧
    compute_next_run_at "once" (some ⟨100, none⟩) none none 0 0 =
      Except.ok (some (utcInstant ⟨100, none⟩)) :=
  ⟨c4_amended_once_semantics.1 c4doc 0 0 7 ⟨100, none⟩ rfl rfl,
   c4_amended_once_semantics.2 "once" ⟨100, none⟩ none none 0 0 rfl⟩

/-! ### Target Resolver (worker.py `send_scheduled_to_targets`, targeting
part) and the boundary validator (backend/models.py) -/

/-- Insertion into an ascending-sorted integer list. -/
def insSorted (x : Int) : List Int → List Int
  | [] => [x]
  | y :: ys => if x ≤ y then x :: y :: ys else y :: insSorted x ys

/-- Python `sorted` on integers (insertion sort). -/
def pySorted : List Int → List Int
  | [] => []
  | x :: xs => insSorted x (pySorted xs)

/-- Python `sorted(set(xs))`: deduplicate, then sort ascending. -/
def sortedSet (xs : List Int) : List Int := pySorted xs.dedup

/-- One row of the chats collection as the dispatch query reads it. -/
structure ChatRow where
  chatId : Int
  isActive : Bool
deriving DecidableEq, Repr

/-- Python `str.lower()`, character-wise. -/
def pyLower (s : String) : String := String.mk (s.toList.map Char.toLower)

/-- Python `(doc.get("targetsMode") or "all").lower()`. -/
def targetsModeOf (doc : WDoc) : String :=
  pyLower (match doc.targetsMode with
           | none => "all"
           | some s => if s = "" then "all" else s)

/-- worker.py target resolution (lines 368-376): `explicit` keeps only the
negative ids of `targetChatIds`, deduplicated and sorted ascending — a
positive id is silently dropped, not rejected; any other mode queries the
registry for `isActive: True, chatId < 0` rows, deduplicated and sorted. -/
def resolveTargets (doc : WDoc) (registry : List ChatRow) : List Int :=
  if targetsModeOf doc = "explicit" then
    sortedSet (doc.targetChatIds.filter (fun x => decide (x < 0)))
  else
    sortedSet ((registry.filter
      (fun r => r.isActive && decide (r.chatId < 0))).map (fun r => r.chatId))

/-- backend/models.py `ScheduledMessageBase`, the fields its validator
reads. -/
structure ScheduledMessageBase where
  scheduleType : String := "once"
  runAt : Option PyDateTime := none
  cron : Option String := none
  targetsMode : String := "all"
  targetChatIds : List Int := []
deriving DecidableEq, Repr

/-- backend/models.py `_validate_schedule`: `once` requires `runAt`,
`cron` requires a non-empty cron string, `explicit` targeting requires a
non-empty `targetChatIds` list.  No other validation is performed; in
particular the sign of the ids in `targetChatIds` is not inspected. -/
def validate_schedule (m : ScheduledMessageBase) : Except String Unit :=
  if m.scheduleType = "once" then
    if m.runAt = none then
      Except.error "runAt is required when scheduleType is once"
    else if m.targetsMode = "explicit" then
      if m.targetChatIds = [] then
        Except.error "targetChatIds is required when targetsMode is explicit"
      else Except.ok ()
    else Except.ok ()
  else
    if m.cron = none ∨ m.cron = some "" then
      Except.error "cron is required when scheduleType is cron"
    else if m.targetsMode = "explicit" then
      if m.targetChatIds = [] then
        Except.error "targetChatIds is required when targetsMode is explicit"
      else Except.ok ()
    else Except.ok ()

theorem mem_insSorted (x y : Int) (l : List Int) :
    y ∈ insSorted x l ↔ y = x ∨ y ∈ l := by
  induction l with
  | nil => simp [insSorted]
  | cons z zs ih =>
    by_cases hle : x ≤ z
    · simp [insSorted, hle]
    · simp [insSorted, hle, ih]
      tauto

theorem mem_pySorted (y : Int) (l : List Int) : y ∈ pySorted l ↔ y ∈ l := by
  induction l with
  | nil => simp [pySorted]
  | cons z zs ih => simp [pySorted, mem_insSorted, ih]

theorem mem_sortedSet (y : Int) (l : List Int) : y ∈ sortedSet l ↔ y ∈ l := by
  simp [sortedSet, mem_pySorted, List.mem_dedup]

/-! ### Scheduler Poller: one tick for one due item
(worker.py `scheduler_loop` and `send_scheduled_to_targets`) -/

/-- The mutable schedule-item fields the tick writes. -/
structure SchedState where
  status : String
  enabled : Bool
  nextRunAt : Option Int
  error : Option String
deriving DecidableEq, Repr

/-- Result of the dispatch phase: the status write it performed (if any),
the chats it sent to, and the delivery rows it created. -/
structure SendPhaseResult where
  statusWrite : Option String
  sends : List Int
  newRows : List Int
deriving DecidableEq, Repr

/-- worker.py `send_scheduled_to_targets` (lines 350-422), sequential
semantics of one execution: resolve targets; with no targets write status
`no_targets` and return; otherwise, per target in order, skip when the
deliveries collection already holds a row for (scheduledId, chatId, runAt)
and otherwise send and insert the row (the success and error paths insert
a row with the same composite key, so which one runs does not matter
here).  `existing` is the set of chat ids that already have a row for this
(schedule, occurrence) pair. -/
def send_scheduled_to_targets (doc : WDoc) (registry : List ChatRow)
    (existing : List Int) : SendPhaseResult :=
  if resolveTargets doc registry = [] then
    { statusWrite := some "no_targets", sends := [], newRows := [] }
  else
    { statusWrite := none,
      sends := (resolveTargets doc registry).filter
        (fun c => !(existing.contains c)),
      newRows := (resolveTargets doc registry).filter
        (fun c => !(existing.contains c)) }

/-- The final status update of one tick iteration (worker.py
`scheduler_loop` lines 468-491), applied unconditionally after the
dispatch phase returns: `once` items become `done` and disabled; for other
items the next run is recomputed — `none` means the cutoff was exceeded
(`ended`), a value reschedules (`scheduled`), an exception is terminal
(`error`). -/
def tickFinalize (doc : WDoc) (tzOffset nowLocalWall : Int)
    (st : SchedState) : SchedState :=
  if doc.scheduleType = "once" then
    { st with status := "done", enabled := false }
  else
    match compute_next_run_at_utc doc tzOffset nowLocalWall with
    | Except.ok none =>
      { st with status := "ended", enabled := false, nextRunAt := none }
    | Except.ok (some u) => { st with status := "scheduled", nextRunAt := some u }
    | Except.error e => { st with status := "error", enabled := false, error := some e }

/-- Trace of one scheduler_loop iteration for one due document. -/
structure TickTrace where
  afterSendStatus : String
  sendPhase : SendPhaseResult
  final : SchedState
deriving DecidableEq, Repr

/-- One scheduler_loop iteration for one due document: mark `processing`,
run the dispatch phase, then apply the final status update
unconditionally. -/
def tickOne (doc : WDoc) (registry : List ChatRow) (existing : List Int)
    (tzOffset nowLocalWall : Int) : TickTrace :=
  let s0 : SchedState :=
    { status := "processing", enabled := doc.enabled,
      nextRunAt := (asDatetime doc.nextRunAt).map utcInstant, error := none }
  let sp := send_scheduled_to_targets doc registry existing
  let s1 := match sp.statusWrite with
            | some st => { s0 with status := st }
            | none => s0
  { afterSendStatus := s1.status, sendPhase := sp,
    final := tickFinalize doc tzOffset nowLocalWall s1 }

/-- C5: a recurring item whose next computed occurrence (cron match
converted to UTC) exceeds its end cutoff ends the tick with status
`ended`, `nextRunAt = none` and `enabled = false`. -/
theorem c5_recurring_past_cutoff_ends (doc : WDoc) (registry : List ChatRow)
    (existing : List Int) (o n : Int) (c : CronExpr) (r e : Int)
    (hst : doc.scheduleType ≠ "once")
    (hc : doc.cron = some c)
    (hn : cronNext c n = some r)
    (he : (asDatetime doc.endAt).map utcInstant = some e)
    (hgt : r - o > e) :
    (tickOne doc registry existing o n).final.status = "ended" ∧
    (tickOne doc registry existing o n).final.nextRunAt = none ∧
    (tickOne doc registry existing o n).final.enabled = false := by
  have hcomp : compute_next_run_at_utc doc o n = Except.ok none := by
    unfold compute_next_run_at_utc
    rw [if_neg hst]
    simp only [hc, hn, he]
    rw [if_pos hgt]
  unfold tickOne tickFinalize
  simp only [hcomp, if_neg hst]
  cases hw : (send_scheduled_to_targets doc registry existing).statusWrite <;> simp [hw]

/-- A cron document with end cutoff at UTC minute 0, whose next match is
UTC minute 1. -/
def c5doc : WDoc :=
  { scheduleType := "cron", cron := some {}, endAt := TimeVal.dt ⟨0, none⟩ }

theorem c5_witness :
    (tickOne c5doc [] [] 0 0).final.status = "ended" ∧
    (tickOne c5doc [] [] 0 0).final.nextRunAt = none ∧
    (tickOne c5doc [] [] 0 0).final.enabled = false :=
  c5_recurring_past_cutoff_ends c5doc [] [] 0 0 {} 1 0 (by decide) rfl rfl rfl
    (by decide)

/-- The boundary document of the C6 scenario: explicit targeting with
`targetChatIds = [-100, 55]` (55 is not group-class). -/
def m6 : ScheduledMessageBase :=
  { scheduleType := "once", runAt := some ⟨0, none⟩,
    targetsMode := "explicit", targetChatIds := [-100, 55] }

/-- The same item as the worker reads it. -/
def d6 : WDoc :=
  { scheduleType := "once", runAt := TimeVal.dt ⟨0, none⟩,
    targetsMode := some "explicit", targetChatIds := [-100, 55] }

/-- C6 counterexample: the explicit target list `[-100, 55]` is NOT
rejected — the boundary validator accepts it, the resolver silently drops
the positive id 55, and dispatch proceeds to the remaining target `-100`
(one send, one delivery row), refuting "rejected as a configuration error
at the boundary before dispatch". -/
theorem c6_counterexample :
    validate_schedule m6 = Except.ok () ∧
    resolveTargets d6 [] = [-100] ∧
    (send_scheduled_to_targets d6 [] []).statusWrite = none ∧
    (send_scheduled_to_targets d6 [] []).sends = [-100] ∧
    (send_scheduled_to_targets d6 [] []).newRows = [-100] :=
  ⟨rfl, rfl, rfl, rfl, rfl⟩

/-- C6 amended: a positive id in an explicit target list is silently
dropped, not surfaced — the boundary validator accepts any non-empty
explicit list regardless of id signs (for an otherwise well-formed `once`
item), and the dispatch targets are exactly the configured ids that are
negative. -/
theorem c6_amended_positive_ids_silently_dropped :
    (∀ (m : ScheduledMessageBase),
      m.scheduleType = "once" → m.runAt ≠ none → m.targetsMode = "explicit" →
      (validate_schedule m = Except.ok () ↔ m.targetChatIds ≠ [])) ∧
    (∀ (doc : WDoc) (registry : List ChatRow) (x : Int),
      targetsModeOf doc = "explicit" →
      (x ∈ resolveTargets doc registry ↔ x ∈ doc.targetChatIds ∧ x < 0)) := by
  constructor
  · intro m hst hrun hmode
    by_cases hl : m.targetChatIds = []
    · simp [validate_schedule, hst, hrun, hmode, hl]
    · simp [validate_schedule, hst, hrun, hmode, hl]
  · intro doc registry x hmode
    simp [resolveTargets, hmode, mem_sortedSet]

theorem c6_amended_witness :
    (validate_schedule m6 = Except.ok () ↔ m6.targetChatIds ≠ []) ∧
    ((-100 : Int) ∈ resolveTargets d6 [] ↔
      (-100 : Int) ∈ d6.targetChatIds ∧ (-100 : Int) < 0) :=
  ⟨c6_amended_positive_ids_silently_dropped.1 m6 rfl (by decide) rfl,
   c6_amended_positive_ids_silently_dropped.2 d6 [] (-100) rfl⟩

/-- The C9 scenario document: a due `once` item in explicit mode whose
only configured id is positive, so the resolver returns the empty set. -/
def c9doc : WDoc :=
  { scheduleType := "once", runAt := TimeVal.dt ⟨0, none⟩,
    targetsMode := some "explicit", targetChatIds := [55] }

/-- C9 counterexample: with an empty resolver result the dispatch phase
does write `no_targets`, but `scheduler_loop` then applies the final
per-kind update unconditionally, so the item's status at the END of the
tick is `done` (for this `once` item), not `no_targets` — refuting the
claim as stated. -/
theorem c9_counterexample :
    resolveTargets c9doc [] = [] ∧
    (tickOne c9doc [] [] 0 0).afterSendStatus = "no_targets" ∧
    (tickOne c9doc [] [] 0 0).final.status = "done" ∧
    (tickOne c9doc [] [] 0 0).final.status ≠ "no_targets" := by
  refine ⟨rfl, rfl, rfl, ?_⟩
  decide

/-- C9 amended: when the resolver returns the empty set the dispatch phase
writes `no_targets` mid-tick and performs no sends and creates no rows,
but the end-of-tick status is overwritten by the final transition and is
one of `done`, `scheduled`, `ended`, `error` — never `no_targets`. -/
theorem c9_amended_no_targets_overwritten (doc : WDoc) (registry : List ChatRow)
    (existing : List Int) (o n : Int)
    (hempty : resolveTargets doc registry = []) :
    (tickOne doc registry existing o n).afterSendStatus = "no_targets" ∧
    (tickOne doc registry existing o n).sendPhase.sends = [] ∧
    (tickOne doc registry existing o n).sendPhase.newRows = [] ∧
    ((tickOne doc registry existing o n).final.status = "done" ∨
     (tickOne doc registry existing o n).final.status = "scheduled" ∨
     (tickOne doc registry existing o n).final.status = "ended" ∨
     (tickOne doc registry existing o n).final.status = "error") ∧
    (tickOne doc registry existing o n).final.status ≠ "no_targets" := by
  have hsp : send_scheduled_to_targets doc registry existing =
      { statusWrite := some "no_targets", sends := [], newRows := [] } := by
    unfold send_scheduled_to_targets
    rw [if_pos hempty]
  have hstatus :
      ((tickOne doc registry existing o n).final.status = "done" ∨
       (tickOne doc registry existing o n).final.status = "scheduled" ∨
       (tickOne doc registry existing o n).final.status = "ended" ∨
       (tickOne doc registry existing o n).final.status = "error") := by
    unfold tickOne tickFinalize
    by_cases hq : doc.scheduleType = "once"
    · simp [hq]
    · simp only [if_neg hq]
      cases hr : compute_next_run_at_utc doc o n with
      | ok v => cases v <;> simp
      | error e => simp
  refine ⟨?_, ?_, ?_, hstatus, ?_⟩
  · unfold tickOne
    simp [hsp]
  · unfold tickOne
    simp [hsp]
  · unfold tickOne
    simp [hsp]
  · rcases hstatus with h | h | h | h <;> rw [h] <;> decide

theorem c9_amended_witness :
    (tickOne c9doc [] [] 0 0).afterSendStatus = "no_targets" ∧
    (tickOne c9doc [] [] 0 0).sendPhase.sends = [] ∧
    (tickOne c9doc [] [] 0 0).sendPhase.newRows = [] ∧
    ((tickOne c9doc [] [] 0 0).final.status = "done" ∨
     (tickOne c9doc [] [] 0 0).final.status = "scheduled" ∨
     (tickOne c9doc [] [] 0 0).final.status = "ended" ∨
     (tickOne c9doc [] [] 0 0).final.status = "error") ∧
    (tickOne c9doc [] [] 0 0).final.status ≠ "no_targets" :=
  c9_amended_no_targets_overwritten c9doc [] [] 0 0 rfl

/-- C7: a rate-limit signal carrying `retryAfter` seconds on the first
text-send attempt makes the pipeline sleep `retryAfter + 1` seconds and
retry exactly once (2 provider calls total, never a third); the second
attempt's outcome is surfaced as is — success, or the failure itself. -/
theorem c7_rate_limit_retry_once (text : String) (provider : Nat → SendOutcome)
    (r : Nat) (htext : text ≠ "") (hfirst : provider 0 = SendOutcome.flood r) :
    (send_text_safe text provider).sleeps = [r + 1] ∧
    (send_text_safe text provider).attempts = 2 ∧
    (send_text_safe text provider).result =
      (match provider 1 with
       | SendOutcome.ok i => Except.ok [i]
       | SendOutcome.flood s => Except.error (PyErr.flood s)
       | SendOutcome.err e => Except.error (PyErr.other e)) := by
  unfold send_text_safe
  rw [if_neg htext]
  simp only [hfirst]
  cases h2 : provider 1 <;> simp [h2]

/-- A provider that rate-limits the first attempt with retryAfter 3 and
succeeds on the retry. -/
def c7provider : Nat → SendOutcome :=
  fun n => if n = 0 then SendOutcome.flood 3 else SendOutcome.ok 7

theorem c7_witness :
    (send_text_safe "hello" c7provider).sleeps = [3 + 1] ∧
    (send_text_safe "hello" c7provider).attempts = 2 ∧
    (send_text_safe "hello" c7provider).result =
      (match c7provider 1 with
       | SendOutcome.ok i => Except.ok [i]
       | SendOutcome.flood s => Except.error (PyErr.flood s)
       | SendOutcome.err e => Except.error (PyErr.other e)) :=
  c7_rate_limit_retry_once "hello" c7provider 3 (by decide) rfl

/-- C8: only the first ten media references take part in a delivery —
truncating the input list to its first ten changes nothing about the
function's behaviour (references beyond the tenth are dropped silently,
with no error and no effect on the first ten), any album sent carries at
most ten files, and every plain-text call carries either one of the first
ten references or the caption. -/
theorem c8_media_truncated_to_ten (image_urls : List String)
    (caption : Option String) (dl : String → Option String)
    (norm : String → String) :
    send_images_safe image_urls caption dl norm =
      send_images_safe (image_urls.take 10) caption dl norm ∧
    (∀ files cap,
      PCall.album files cap ∈ send_images_safe image_urls caption dl norm →
      files.length ≤ 10) ∧
    (∀ u, PCall.text u ∈ send_images_safe image_urls caption dl norm →
      u ∈ image_urls.take 10 ∨ some u = caption) := by
  by_cases hnil : image_urls = []
  · subst hnil
    refine ⟨rfl, ?_, ?_⟩
    · intro files cap hmem
      simp [send_images_safe] at hmem
    · intro u hmem
      simp [send_images_safe] at hmem
  · have htnil : ¬ image_urls.take 10 = [] := by
      rw [List.take_eq_nil_iff]
      rintro (h | h)
      · exact absurd h (by decide)
      · exact hnil h
    have htt : (image_urls.take 10).take 10 = image_urls.take 10 := by
      rw [List.take_take]
      norm_num
    refine ⟨?_, ?_, ?_⟩
    · unfold send_images_safe
      rw [if_neg hnil, if_neg htnil, htt]
    · intro files cap hmem
      unfold send_images_safe at hmem
      rw [if_neg hnil] at hmem
      by_cases hdl : (image_urls.take 10).filterMap dl = []
      · rw [if_pos hdl] at hmem
        rcases List.mem_append.mp hmem with h | h
        · cases hcap : caption with
          | none =>
            rw [hcap] at h
            exact absurd h (List.not_mem_nil _)
          | some c =>
            rw [hcap] at h
            exact PCall.noConfusion (List.mem_singleton.mp h)
        · obtain ⟨a, _, heq⟩ := List.mem_map.mp h
          exact PCall.noConfusion heq
      · rw [if_neg hdl] at hmem
        have heq := List.mem_singleton.mp hmem
        have hfiles : files = ((image_urls.take 10).filterMap dl).map norm := by
          cases heq
          rfl
        subst hfiles
        calc (((image_urls.take 10).filterMap dl).map norm).length
            = ((image_urls.take 10).filterMap dl).length := by
              rw [List.length_map]
          _ ≤ (image_urls.take 10).length := List.length_filterMap_le dl _
          _ ≤ 10 := image_urls.length_take_le 10
    · intro u hmem
      unfold send_images_safe at hmem
      rw [if_neg hnil] at hmem
      by_cases hdl : (image_urls.take 10).filterMap dl = []
      · rw [if_pos hdl] at hmem
        rcases List.mem_append.mp hmem with h | h
        · cases hcap : caption with
          | none =>
            rw [hcap] at h
            exact absurd h (List.not_mem_nil _)
          | some c =>
            rw [hcap] at h
            have := List.mem_singleton.mp h
            refine Or.inr ?_
            cases this
            rfl
        · obtain ⟨a, ha, heq⟩ := List.mem_map.mp h
          refine Or.inl ?_
          cases heq
          exact ha
      · rw [if_neg hdl] at hmem
        exact PCall.noConfusion (List.mem_singleton.mp hmem)

/-- Fourteen media references, as in the C8 scenario. -/
def urls14 : List String :=
  ["u01", "u02", "u03", "u04", "u05", "u06", "u07", "u08", "u09", "u10",
   "u11", "u12", "u13", "u14"]

theorem c8_witness :
    (send_images_safe urls14 none (fun u => some u) (fun u => u) =
      send_images_safe (urls14.take 10) none (fun u => some u) (fun u => u)) ∧
    (((urls14.take 10).filterMap (fun u => some u)).map (fun u => u)).length ≤ 10 ∧
    ("u01" ∈ urls14.take 10 ∨ some "u01" = (none : Option String)) :=
  ⟨(c8_media_truncated_to_ten urls14 none (fun u => some u) (fun u => u)).1,
   (c8_media_truncated_to_ten urls14 none (fun u => some u) (fun u => u)).2.1
     (((urls14.take 10).filterMap (fun u => some u)).map (fun u => u)) none
     (by decide),
   (c8_media_truncated_to_ten urls14 none (fun _ => none) (fun u => u)).2.2
     "u01" (by decide)⟩

/-- A character that is none of the raw HTML metacharacters that item
content must not contribute unescaped (`&` appears in escaped output only
as the head of an entity, so the delimiters checked here are the tag and
attribute metacharacters). -/
def goodChar (c : Char) : Bool :=
  !(c = '<' || c = '>' || c = '"' || c = '\'')

theorem escChar_all_good (a : Char) : (escChar a).all goodChar = true := by
  unfold escChar
  split
  · decide
  · decide
  · decide
  · decide
  · decide
  · rename_i h1 h2 h3 h4 h5
    simp [goodChar]
    exact ⟨⟨⟨h2, h3⟩, h4⟩, h5⟩

theorem esc_all_good (s : String) : (esc s).toList.all goodChar = true := by
  show (s.toList.flatMap escChar).all goodChar = true
  generalize s.toList = l
  induction l with
  | nil => rfl
  | cons a l ih =>
    rw [List.flatMap_cons, List.all_append, ih, escChar_all_good a]
    rfl

/-- C10: the caption builder embeds only HTML-escaped content — the
result is the escaped, stripped title in bold tags, with the escaped,
stripped description appended on a new line exactly when it is non-empty
after stripping; `esc` escapes all five metacharacters (quotes included),
and no escaped string ever contains a raw `<`, `>`, `"` or apostrophe. -/
theorem c10_build_caption_escapes (t d : String) :
    build_caption t d =
      "<b>" ++ esc (pyStrip t) ++ "</b>" ++
        (if pyStrip d = "" then "" else "\n" ++ esc (pyStrip d)) ∧
    (esc (pyStrip t)).toList.all goodChar = true ∧
    (esc (pyStrip d)).toList.all goodChar = true ∧
    escChar '&' = "&amp;".toList ∧ escChar '<' = "&lt;".toList ∧
    escChar '>' = "&gt;".toList ∧ escChar '"' = "&quot;".toList ∧
    escChar '\'' = "&#x27;".toList := by
  refine ⟨?_, esc_all_good _, esc_all_good _, rfl, rfl, rfl, rfl, rfl⟩
  unfold build_caption
  by_cases h : pyStrip d = ""
  · simp [h]
  · simp [h, String.append_assoc]
    have hbn : ("</b>\n" : String) = "</b>" ++ "\n" := rfl
    rw [hbn, String.append_assoc]

/-! ### Delivery Claim Ledger: executions racing on one
(scheduledItemId, destinationId, occurrenceInstant) triple
(worker.py `send_scheduled_to_targets` lines 384-422 together with the
unique composite index `scheduledId_chatId_runAt_uniq` created in
`get_db`, lines 286-301). -/

/-- Counter abstraction of N executions of the per-target block for ONE
fixed triple.  Each execution runs, in order: the `find_one` existence
check (skip when a row exists), the provider send, and `insert_one` —
which succeeds iff no row exists at that moment, the unique composite
index turning a concurrent duplicate into `DuplicateKeyError`, which the
code swallows (both the success and the error path insert under the same
key, so the row content is irrelevant to the race).  The state counts the
executions at each program point plus the total sends performed and
inserts won. -/
structure Pool where
  row : Bool
  nStart : Nat
  nSend : Nat
  nInsert : Nat
  nDone : Nat
  sends : Nat
  inserts : Nat
deriving DecidableEq, Repr

/-- Which transition of which program point fires next (the scheduler's
choice in an interleaving). -/
inductive ClaimStep where
  | checkSkip
  | checkPass
  | doSend
  | insertWin
  | insertLose
deriving DecidableEq, Repr

/-- Apply one step when its guard holds. -/
def claimStep (p : Pool) : ClaimStep → Option Pool
  | ClaimStep.checkSkip =>
    if p.row = true ∧ 0 < p.nStart then
      some { p with nStart := p.nStart - 1, nDone := p.nDone + 1 }
    else none
  | ClaimStep.checkPass =>
    if p.row = false ∧ 0 < p.nStart then
      some { p with nStart := p.nStart - 1, nSend := p.nSend + 1 }
    else none
  | ClaimStep.doSend =>
    if 0 < p.nSend then
      some { p with nSend := p.nSend - 1, nInsert := p.nInsert + 1,
                    sends := p.sends + 1 }
    else none
  | ClaimStep.insertWin =>
    if p.row = false ∧ 0 < p.nInsert then
      some { p with row := true, nInsert := p.nInsert - 1,
                    nDone := p.nDone + 1, inserts := p.inserts + 1 }
    else none
  | ClaimStep.insertLose =>
    if p.row = true ∧ 0 < p.nInsert then
      some { p with nInsert := p.nInsert - 1, nDone := p.nDone + 1 }
    else none

/-- Run an interleaving; `none` means a step's guard failed (no such
interleaving exists). -/
def runClaims (p : Pool) : List ClaimStep → Option Pool
  | [] => some p
  | s :: rest =>
    match claimStep p s with
    | none => none
    | some q => runClaims q rest

/-- N executions poised at the `find_one` check, no row yet. -/
def initPool (nExec : Nat) : Pool :=
  { row := false, nStart := nExec, nSend := 0, nInsert := 0, nDone := 0,
    sends := 0, inserts := 0 }

/-- The invariant tying the row to the insert count: execution count is
conserved, and while no row exists nothing has been inserted and nobody
has finished; once the row exists exactly one insert has won. -/
def poolInv (nExec : Nat) (p : Pool) : Prop :=
  p.nStart + p.nSend + p.nInsert + p.nDone = nExec ∧
  (p.row = false → p.inserts = 0 ∧ p.nDone = 0) ∧
  (p.row = true → p.inserts = 1)

theorem claimStep_inv (nExec : Nat) (p r : Pool) (s : ClaimStep)
    (hp : poolInv nExec p) (hs : claimStep p s = some r) : poolInv nExec r := by
  obtain ⟨hsum, hf, ht⟩ := hp
  cases s with
  | checkSkip =>
    simp only [claimStep] at hs
    split at hs
    · rename_i hcond
      injection hs with hs
      subst hs
      refine ⟨by simp; omega, ?_, ?_⟩
      · intro hr
        simp at hr
        rw [hr] at hcond
        exact absurd hcond.1 (by decide)
      · intro hr
        simp at hr
        exact ht hr
    · exact Option.noConfusion hs
  | checkPass =>
    simp only [claimStep] at hs
    split at hs
    · rename_i hcond
      injection hs with hs
      subst hs
      refine ⟨by simp; omega, ?_, ?_⟩
      · intro hr
        simp at hr
        exact (hf hr).imp id id
      · intro hr
        simp at hr
        rw [hr] at hcond
        exact absurd hcond.1 (by decide)
    · exact Option.noConfusion hs
  | doSend =>
    simp only [claimStep] at hs
    split at hs
    · rename_i hcond
      injection hs with hs
      subst hs
      refine ⟨by simp; omega, ?_, ?_⟩
      · intro hr
        simp at hr
        exact hf hr
      · intro hr
        simp at hr
        exact ht hr
    · exact Option.noConfusion hs
  | insertWin =>
    simp only [claimStep] at hs
    split at hs
    · rename_i hcond
      injection hs with hs
      subst hs
      refine ⟨by simp; omega, ?_, ?_⟩
      · intro hr
        simp at hr
      · intro _
        have := (hf hcond.1).1
        simp [this]
    · exact Option.noConfusion hs
  | insertLose =>
    simp only [claimStep] at hs
    split at hs
    · rename_i hcond
      injection hs with hs
      subst hs
      refine ⟨by simp; omega, ?_, ?_⟩
      · intro hr
        simp at hr
        rw [hr] at hcond
        exact absurd hcond.1 (by decide)
      · intro hr
        simp at hr
        exact ht hr
    · exact Option.noConfusion hs

theorem runClaims_inv (nExec : Nat) (tr : List ClaimStep) :
    ∀ (p q : Pool), poolInv nExec p → runClaims p tr = some q →
      poolInv nExec q := by
  induction tr with
  | nil =>
    intro p q hp h
    simp only [runClaims] at h
    injection h with h
    subst h
    exact hp
  | cons s rest ih =>
    intro p q hp h
    simp only [runClaims] at h
    cases hs : claimStep p s with
    | none => rw [hs] at h; exact Option.noConfusion h
    | some r =>
      rw [hs] at h
      exact ih r q (claimStep_inv nExec p r s hp hs) h

/-- The racing interleaving of two executions: both pass the `find_one`
check before either has inserted, both send, then the inserts race and
one gets `DuplicateKeyError`. -/
def c1trace : List ClaimStep :=
  [ClaimStep.checkPass, ClaimStep.checkPass, ClaimStep.doSend,
   ClaimStep.doSend, ClaimStep.insertWin, ClaimStep.insertLose]

/-- C1 counterexample: the claim gating the send is FALSE of the code —
the atomic claim (`insert_one` under the unique index) happens AFTER the
send, and the pre-send `find_one` check is not atomic, so there is a
complete interleaving of 2 executions in which BOTH send (2 sends), while
only one insert wins.  This refutes "exactly one proceeds to send and the
other N-1 perform no send action". -/
theorem c1_counterexample :
    runClaims (initPool 2) c1trace =
      some { row := true, nStart := 0, nSend := 0, nInsert := 0, nDone := 2,
             sends := 2, inserts := 1 } ∧
    ¬ (∀ (tr : List ClaimStep) (q : Pool),
        runClaims (initPool 2) tr = some q →
        q.nStart = 0 ∧ q.nSend = 0 ∧ q.nInsert = 0 →
        q.sends ≤ 1) := by
  refine ⟨by decide, fun h => ?_⟩
  have := h c1trace
    { row := true, nStart := 0, nSend := 0, nInsert := 0, nDone := 2,
      sends := 2, inserts := 1 } (by decide) (by decide)
  exact absurd this (by decide)

/-- C1 amended: the unique-index insert — not the pre-send check — is the
claim, and it follows the send: across every interleaving of N concurrent
executions for one triple at most one insert wins (at most one Delivery
row is ever created), and when all executions have completed exactly one
row exists; the pre-send `find_one` check only makes executions that start
after the row exists skip their send, so more than one send can occur. -/
theorem c1_amended_one_insert_wins (nExec : Nat) (tr : List ClaimStep)
    (q : Pool) (h : runClaims (initPool nExec) tr = some q) :
    q.inserts ≤ 1 ∧
    (q.nStart = 0 ∧ q.nSend = 0 ∧ q.nInsert = 0 → 1 ≤ nExec →
      q.inserts = 1) := by
  have hinv : poolInv nExec (initPool nExec) := by
    refine ⟨by simp [initPool], ?_, ?_⟩
    · intro _
      exact ⟨rfl, rfl⟩
    · intro hr
      exact absurd hr (by simp [initPool])
  obtain ⟨hsum, hf, ht⟩ := runClaims_inv nExec tr (initPool nExec) q hinv h
  constructor
  · cases hrow : q.row
    · rw [(hf hrow).1]
      omega
    · rw [ht hrow]
  · rintro ⟨h1, h2, h3⟩ hn
    cases hrow : q.row
    · have := (hf hrow).2
      omega
    · exact ht hrow

theorem c1_amended_witness :
    ({ row := true, nStart := 0, nSend := 0, nInsert := 0, nDone := 2,
       sends := 2, inserts := 1 } : Pool).inserts ≤ 1 ∧
    (({ row := true, nStart := 0, nSend := 0, nInsert := 0, nDone := 2,
        sends := 2, inserts := 1 } : Pool).nStart = 0 ∧
     ({ row := true, nStart := 0, nSend := 0, nInsert := 0, nDone := 2,
        sends := 2, inserts := 1 } : Pool).nSend = 0 ∧
     ({ row := true, nStart := 0, nSend := 0, nInsert := 0, nDone := 2,
        sends := 2, inserts := 1 } : Pool).nInsert = 0 → 1 ≤ 2 →
     ({ row := true, nStart := 0, nSend := 0, nInsert := 0, nDone := 2,
        sends := 2, inserts := 1 } : Pool).inserts = 1) :=
  c1_amended_one_insert_wins 2 c1trace
    { row := true, nStart := 0, nSend := 0, nInsert := 0, nDone := 2,
      sends := 2, inserts := 1 } (by decide)

/-! ### Sequential re-executions for one triple (claim C2) -/

/-- Sequential semantics of the per-target block for one triple, one tick
execution at a time (worker.py lines 384-422): when a row for the triple
exists the execution `continue`s — no send, no write; otherwise it sends
and inserts the row, whose stored status reflects the provider outcome
(`sendOk = true` for `sent`, `false` for `error`).  Returns the new row
state and this execution's (sent, inserted) flags.  No code path updates
an existing row. -/
def deliverOnceSeq (row : Option Bool) (sendOk : Bool) :
    Option Bool × Bool × Bool :=
  match row with
  | some v => (some v, false, false)
  | none => (some sendOk, true, true)

/-- A sequence of tick executions for the same triple, given each
execution's provider outcome; returns the final row state and the
per-execution (sent, inserted) log. -/
def deliverSeq : Option Bool → List Bool → Option Bool × List (Bool × Bool)
  | row, [] => (row, [])
  | row, o :: rest =>
    match deliverOnceSeq row o with
    | (row1, s, i) =>
      match deliverSeq row1 rest with
      | (rowF, log) => (rowF, (s, i) :: log)

theorem deliverSeq_some (v : Bool) (outs : List Bool) :
    deliverSeq (some v) outs = (some v, outs.map (fun _ => (false, false))) := by
  induction outs with
  | nil => rfl
  | cons o rest ih =>
    simp only [deliverSeq, deliverOnceSeq, ih, List.map_cons]

/-- C2: across any sequence of tick executions on one triple, at most one
execution inserts a Delivery row (so at most one row is ever created);
and once a row exists it is never touched again — the stored outcome
stays exactly as created, and every later execution performs no send and
no insert (it sees the row and stops). -/
theorem c2_row_created_once_never_updated (outs : List Bool) (v : Bool) :
    (((deliverSeq none outs).2.filter (fun e => e.2)).length ≤ 1) ∧
    (deliverSeq (some v) outs).1 = some v ∧
    (∀ e ∈ (deliverSeq (some v) outs).2, e = (false, false)) := by
  refine ⟨?_, ?_, ?_⟩
  · cases outs with
    | nil => decide
    | cons o rest =>
      have hrun : deliverSeq none (o :: rest) =
          (some o, (true, true) :: rest.map (fun _ => (false, false))) := by
        simp only [deliverSeq, deliverOnceSeq, deliverSeq_some o rest]
      rw [hrun]
      have hz : (rest.map (fun _ => ((false : Bool), (false : Bool)))).filter
          (fun e => e.2) = [] := by
        induction rest with
        | nil => rfl
        | cons a l ih => simp [ih]
      simp [List.filter_cons, hz]
  · rw [deliverSeq_some]
  · rw [deliverSeq_some]
    intro e he
    obtain ⟨a, _, heq⟩ := List.mem_map.mp he
    exact heq.symm

theorem c2_witness :
    (((deliverSeq none [true, false]).2.filter (fun e => e.2)).length ≤ 1) ∧
    (deliverSeq (some true) [true, false]).1 = some true ∧
    (∀ e ∈ (deliverSeq (some true) [true, false]).2, e = (false, false)) :=
  c2_row_created_once_never_updated [true, false] true
